import Mathlib

/-!
Shallow embedding of the pistache core (router.cc, transport.cc) for
verification of its natural-language specification.

Strings are modelled as `List Char`, file descriptors as `Nat`, byte
buffers as `List Nat`.  Kernel syscalls (`send`, `recv`, `timerfd_settime`)
are modelled by explicit oracles: a list of results the kernel would
return, consumed in order.  Hash maps (`std::unordered_map`) are modelled
as association lists with `find`/`insert`/`erase` matching the C++
semantics (`insert` is a no-op when the key is present).
-/

deriving instance DecidableEq for Except

/-! ### Association-list model of std::unordered_map -/

/-- `std::unordered_map::find`, as an association-list lookup. -/
def mapFind {α : Type} : List (Nat × α) → Nat → Option α
  | [], _ => none
  | (k', v) :: m, k => if k' = k then some v else mapFind m k

/-- `std::unordered_map::insert`: inserts only when the key is absent
(the C++ call silently does nothing when the key is already present). -/
def mapInsert {α : Type} (m : List (Nat × α)) (k : Nat) (v : α) : List (Nat × α) :=
  match mapFind m k with
  | some _ => m
  | none => (k, v) :: m

/-- `std::unordered_map::erase` by key. -/
def mapErase {α : Type} : List (Nat × α) → Nat → List (Nat × α)
  | [], _ => []
  | (k', v) :: m, k => if k' = k then m else (k', v) :: mapErase m k

/-! ### Router: fragments (router.cc, Route::Fragment) -/

/-- A compiled URL fragment: the stored text plus the four flag bits of
`Route::Fragment::Flag` (Fixed, Parameter, Splat, Optional). -/
structure Fragment where
  value : List Char
  fixed : Bool := false
  parameter : Bool := false
  splat : Bool := false
  optional : Bool := false
deriving DecidableEq, Inhabited

/-- `Route::Fragment::checkInvariant`: `true` when no excluded flag
combination is set (the C++ code throws `std::logic_error` otherwise). -/
def fragWF (f : Fragment) : Bool :=
  !(f.fixed && f.optional) && !(f.fixed && f.parameter) &&
  !(f.splat && f.fixed) && !(f.splat && f.optional) && !(f.splat && f.parameter)

/-- `std::string::find(c)`: index of the first occurrence of `a`, `none`
standing for `npos`. -/
def findCharPos (a : Char) : List Char → Option Nat
  | [] => none
  | c :: cs => if c = a then some 0 else (findCharPos a cs).map (· + 1)

/-- The tail call of `Route::Fragment::init`: `checkInvariant`, throwing
`std::logic_error` on an excluded flag combination. -/
def checkInv (f : Fragment) : Except String Fragment :=
  if fragWF f then .ok f else .error "Invariant violated"

/-- `Route::Fragment::init` together with the constructor's empty check:
classify the first character (`:` Parameter, lone `*` Splat, otherwise
Fixed), locate `?`, strip a trailing `?` on a Parameter fragment, and run
`checkInvariant`.  Errors are the C++ exceptions. -/
def fragmentInit (v : List Char) : Except String Fragment :=
  match v with
  | [] => .error "Invalid empty fragment"
  | c :: rest =>
    if c = '*' ∧ 0 < rest.length then .error "Invalid splat parameter"
    else
      let pa : Bool := decide (c = ':')
      let sp : Bool := decide (c = '*')
      let fx : Bool := !pa && !sp
      match findCharPos '?' (c :: rest) with
      | none =>
        checkInv { value := c :: rest, fixed := fx, parameter := pa, splat := sp,
                   optional := false }
      | some pos =>
        if c ≠ ':' then .error "Only optional parameters are currently supported"
        else if pos ≠ (c :: rest).length - 1 then .error "? should be at the end of the string"
        else checkInv { value := (c :: rest).take pos, fixed := fx, parameter := pa,
                        splat := sp, optional := true }

/-- `Route::Fragment::match(raw)`. -/
def fragMatch (f : Fragment) (raw : List Char) : Bool :=
  if f.fixed then decide (raw = f.value)
  else if f.parameter || f.splat then true
  else false

/-- `Route::Fragment::isParameter`. -/
def isParameterF (f : Fragment) : Bool := f.parameter

/-- `Route::Fragment::isOptional`. -/
def isOptionalF (f : Fragment) : Bool := f.parameter && f.optional

/-- `Route::Fragment::isSplat`. -/
def isSplatF (f : Fragment) : Bool := f.splat

/-- The `std::getline(iss, p, '/')` tokenizer with empty tokens skipped,
accumulating the current token in reverse. -/
def splitAux : List Char → List Char → List (List Char)
  | [], acc => if acc.isEmpty then [] else [acc.reverse]
  | c :: cs, acc =>
    if c = '/' then
      if acc.isEmpty then splitAux cs [] else acc.reverse :: splitAux cs []
    else splitAux cs (c :: acc)

/-- Split a URL into its nonempty `/`-separated segments. -/
def splitFragments (s : List Char) : List (List Char) := splitFragments.go s
where go (s : List Char) : List (List Char) := splitAux s []

/-- Build one `Fragment` per segment, propagating the first exception
(the body of the `while (std::getline...)` loop in `fromUrl`). -/
def compileFragments : List (List Char) → Except String (List Fragment)
  | [] => .ok []
  | v :: vs =>
    match fragmentInit v with
    | .error e => .error e
    | .ok f =>
      match compileFragments vs with
      | .error e => .error e
      | .ok fs => .ok (f :: fs)

/-- `Route::Fragment::fromUrl`. -/
def fromUrl (url : List Char) : Except String (List Fragment) :=
  compileFragments (splitFragments url)

/-! ### Router: matching (router.cc, Route::match) -/

/-- `TypedParam`: a (name, raw value) pair. -/
structure TypedParam where
  name : List Char
  value : List Char
deriving DecidableEq, Inhabited

/-- The indexed loop of `Route::match`: walk the pattern fragments; a
pattern position beyond the request fragments must be Optional; a present
position must match, Parameter and Splat positions capture.  `none` is
`UNMATCH()`. -/
def matchLoop : List Fragment → List Fragment → Option (List TypedParam × List TypedParam)
  | [], _ => some ([], [])
  | f :: ps, [] =>
    if isOptionalF f then matchLoop ps [] else none
  | f :: ps, r :: rs =>
    if fragMatch f r.value then
      match matchLoop ps rs with
      | none => none
      | some (params, splats) =>
        if isParameterF f then some (⟨f.value, r.value⟩ :: params, splats)
        else if isSplatF f then some (params, ⟨r.value, r.value⟩ :: splats)
        else some (params, splats)
    else none

/-- `Route::match(req)`: split the request, reject when it has more
fragments than the pattern, then run the matching loop.  The `Except`
layer carries the exceptions `Fragment`'s constructor may throw while
splitting the request URL. -/
def routeMatch (pat : List Fragment) (req : List Char) :
    Except String (Bool × List TypedParam × List TypedParam) :=
  match fromUrl req with
  | .error e => .error e
  | .ok reqFragments =>
    if reqFragments.length > pat.length then .ok (false, [], [])
    else
      match matchLoop pat reqFragments with
      | none => .ok (false, [], [])
      | some (params, splats) => .ok (true, params, splats)

/-! ### Router: request parameter access (router.cc, Rest::Request) -/

/-- `Rest::Request::hasParam`. -/
def hasParam (params : List TypedParam) (name : List Char) : Bool :=
  params.any (fun p => decide (p.name = name))

/-- `Rest::Request::param`: linear search by name, throwing
"Unknown parameter" when absent. -/
def requestParam (params : List TypedParam) (name : List Char) :
    Except String TypedParam :=
  match params.find? (fun p => decide (p.name = name)) with
  | some p => .ok p
  | none => .error "Unknown parameter"

/-! ### Router: registration and dispatch (router.cc, Router / HttpHandler) -/

inductive Method where
  | Get | Post | Put | Delete
deriving DecidableEq, Inhabited

/-- A compiled route: its fragment sequence and an identifier standing
for its handler closure. -/
structure Route where
  fragments : List Fragment
  handler : Nat
deriving DecidableEq, Inhabited

/-- `Router::addRoute`: append to the method's route vector. -/
def addRoute (routes : Method → List Route) (m : Method) (r : Route) :
    Method → List Route :=
  fun m' => if m' = m then routes m' ++ [r] else routes m'

/-- A router built by a sequence of registrations, starting empty. -/
def buildRouter (regs : List (Method × Route)) : Method → List Route :=
  regs.foldl (fun acc p => addRoute acc p.1 p.2) (fun _ => [])

/-- Result of `Private::HttpHandler::onRequest`: either a handler was
invoked with the extracted parameters, or a literal response was sent. -/
inductive RouterResponse where
  | dispatched (handler : Nat) (params : List TypedParam) (splats : List TypedParam)
  | response (code : Nat) (body : List Char)
deriving DecidableEq

/-- The body of the 404 response sent when no route matches. -/
def notFoundBody : List Char := "Could not find a matching route".data

/-- The loop of `Private::HttpHandler::onRequest` over the routes
registered for the request's method: try each route in order, dispatch on
the first match, fall through to a 404 response. -/
def onRequestLoop (rs : List Route) (resource : List Char) :
    Except String RouterResponse :=
  match rs with
  | [] => .ok (.response 404 notFoundBody)
  | r :: rest =>
    match routeMatch r.fragments resource with
    | .error e => .error e
    | .ok (true, ps, ss) => .ok (.dispatched r.handler ps ss)
    | .ok (false, _, _) => onRequestLoop rest resource

/-- `Private::HttpHandler::onRequest`: select the route vector of the
request's method, then run the dispatch loop. -/
def onRequest (routes : Method → List Route) (m : Method) (resource : List Char) :
    Except String RouterResponse :=
  onRequestLoop (routes m) resource

/-! ### Transport: asynchronous writes (transport.cc, Transport::asyncWriteImpl) -/

/-- A pending/submitted write: the raw payload bytes, the socket send
flags, and an identifier standing for this write's resolve/reject
callback pair (`WriteEntry` in transport.cc, restricted to the raw-byte
`BufferHolder` branch the write claims are about). -/
structure WriteEntry where
  wdata : List Nat
  flags : Nat
  writeId : Nat
deriving DecidableEq, Inhabited

/-- `asyncWriteImpl`'s `WriteStatus` argument. -/
inductive WriteStatus where
  | FirstTry | Retry
deriving DecidableEq

/-- One result of the `::send` syscall, as seen by the write loop:
`sent n` is a nonnegative return (the kernel accepted at most the
requested length), `eagain` is `-1` with `EAGAIN`/`EWOULDBLOCK`, `err`
any other failure. -/
inductive SendRes where
  | sent (n : Nat) | eagain | err
deriving DecidableEq

/-- How one call of `asyncWriteImpl` ended. -/
inductive WriteOutcome where
  /-- `resolve` was called with byte count `n` for the write `writeId`. -/
  | resolved (writeId : Nat) (n : Nat)
  /-- `reject` was called with a system error for the write `writeId`. -/
  | rejected (writeId : Nat)
  /-- EAGAIN: the loop exited after arming the fd for Read|Write (on a
  first try it also attempted to insert a pending entry). -/
  | pendingArmed
  /-- the send oracle is exhausted and the loop is still running. -/
  | looping
deriving DecidableEq

/-- The `for (;;)` loop of `Transport::asyncWriteImpl`, faithful to the
source: `len` is recomputed as `buffer.size() - totalWritten` each
iteration and the completion test compares the advanced total against
that stale `len`.  Returns the updated pending-write table, the outcome,
and the bytes the kernel accepted (in order) during this call. -/
def writeLoopAux (toWrite : List (Nat × WriteEntry)) (fd : Nat) (entry : WriteEntry)
    (status : WriteStatus) :
    Nat → List SendRes → List (Nat × WriteEntry) × WriteOutcome × List Nat
  | _, [] => (toWrite, .looping, [])
  | totalWritten, r :: rs =>
    let len := entry.wdata.length - totalWritten
    match r with
    | .eagain =>
      if status = .FirstTry then
        (mapInsert toWrite fd
           ⟨entry.wdata.drop totalWritten, entry.flags, entry.writeId⟩,
         .pendingArmed, [])
      else (toWrite, .pendingArmed, [])
    | .err =>
      ((if status = .Retry then mapErase toWrite fd else toWrite),
       .rejected entry.writeId, [])
    | .sent n =>
      let b := min n len
      let tw := totalWritten + b
      let chunk := (entry.wdata.drop totalWritten).take b
      if tw = len then
        ((if status = .Retry then mapErase toWrite fd else toWrite),
         .resolved entry.writeId tw, chunk)
      else
        let rest := writeLoopAux toWrite fd entry status tw rs
        (rest.1, rest.2.1, chunk ++ rest.2.2)

/-- `Transport::asyncWriteImpl(fd, flags, buffer, resolve, reject, status)`,
starting with `totalWritten = 0` and driven by the send oracle. -/
def asyncWriteImpl (toWrite : List (Nat × WriteEntry)) (fd : Nat) (entry : WriteEntry)
    (status : WriteStatus) (oracle : List SendRes) :
    List (Nat × WriteEntry) × WriteOutcome × List Nat :=
  writeLoopAux toWrite fd entry status 0 oracle

/-! ### Transport: timers (transport.cc, Transport::armTimerMsImpl) -/

/-- The `itimerspec` value passed to `timerfd_settime`. -/
structure Itimerspec where
  interval_sec : Int
  interval_nsec : Int
  value_sec : Int
  value_nsec : Int
deriving DecidableEq

/-- The `itimerspec` computed by `armTimerMsImpl` for a duration of `d`
milliseconds: below one second the value is cast to nanoseconds, from one
second on it is cast to (truncated) seconds. -/
def timerSpecOfMs (d : Int) : Itimerspec :=
  if d < 1000 then ⟨0, 0, 0, d * 1000000⟩
  else ⟨0, 0, d.tdiv 1000, 0⟩

/-- A `TimerEntry`: timer fd, duration in milliseconds, active flag (the
resolve/reject callbacks are left abstract). -/
structure TimerEntry where
  fd : Nat
  value : Int
  active : Bool := true
deriving DecidableEq, Inhabited

/-- Side effects `armTimerMsImpl` can perform on the kernel/poller. -/
inductive TimerEffect where
  | settime (fd : Nat) (spec : Itimerspec)
  | registerOneShot (fd : Nat)
deriving DecidableEq

/-- How `armTimerMsImpl` ended. -/
inductive TimerOutcome where
  | rejected (msg : String)
  | armed
deriving DecidableEq

/-- `Transport::armTimerMsImpl`: reject when the fd already has a timer;
otherwise program the timer (`timerfd_settime`, whose success is the
oracle bit `settimeOk`), register the fd one-shot and insert the entry.
Returns the updated timer table, the kernel/poller effects performed, and
the outcome. -/
def armTimerMsImpl (settimeOk : Bool) (timers : List (Nat × TimerEntry))
    (entry : TimerEntry) :
    List (Nat × TimerEntry) × List TimerEffect × TimerOutcome :=
  match mapFind timers entry.fd with
  | some _ => (timers, [], .rejected "Timer is already armed")
  | none =>
    let spec := timerSpecOfMs entry.value
    if settimeOk then
      (mapInsert timers entry.fd entry,
       [.settime entry.fd spec, .registerOneShot entry.fd], .armed)
    else
      (timers, [.settime entry.fd spec], .rejected "Could not set timer time")

/-! ### Transport: incoming reads (transport.cc, Transport::handleIncoming) -/

/-- One result of the `recv` syscall: `data chunk` is a positive return
delivering `chunk` (clamped to the space the caller asked for), `eagain`
is `-1` with `EAGAIN`/`EWOULDBLOCK`, `closed` a `0` return, `reset` is
`ECONNRESET`, `fatalErr` any other failure. -/
inductive RecvRes where
  | data (chunk : List Nat) | eagain | closed | reset | fatalErr
deriving DecidableEq

/-- Observable events of one `handleIncoming` turn. -/
inductive InEvent where
  /-- `handler_->onInput(buffer, totalBytes, peer)` with the accumulated bytes. -/
  | onInput (bytes : List Nat)
  /-- `handlePeerDisconnection(peer)`. -/
  | disconnected
  /-- the "Too long packet" diagnostic on `std::cerr`. -/
  | tooLongDiag
  /-- `throw std::runtime_error(strerror(errno))`. -/
  | fatal
deriving DecidableEq

/-- The `for (;;)` loop of `Transport::handleIncoming`: each `recv` gets
`maxB - total` bytes of space; a positive return accumulates and breaks
with the oversize diagnostic once `total` reaches `maxB`; EAGAIN delivers
the accumulated buffer (if nonempty) to the handler and ends the turn. -/
def handleIncomingLoop (maxB : Nat) : List RecvRes → Nat → List Nat → List InEvent
  | [], _, _ => []
  | r :: rs, total, acc =>
    match r with
    | .eagain => if 0 < total then [.onInput acc] else []
    | .closed => [.disconnected]
    | .reset => [.disconnected]
    | .fatalErr => [.fatal]
    | .data chunk =>
      let b := chunk.take (maxB - total)
      if b.length = 0 then [.disconnected]
      else
        let total' := total + b.length
        if maxB ≤ total' then [.tooLongDiag]
        else handleIncomingLoop maxB rs total' (acc ++ b)

/-- `Transport::handleIncoming` for one readiness turn, starting from an
empty scratch buffer.  `maxB` is `Const::MaxBuffer`. -/
def handleIncoming (maxB : Nat) (oracle : List RecvRes) : List InEvent :=
  handleIncomingLoop maxB oracle 0 []

/-! ### Spec-side helpers used to state the claims -/

/-- The `bool` component of a `Route::match` result (`false` when the
match threw). -/
def matchedB : Except String (Bool × List TypedParam × List TypedParam) → Bool
  | .ok (b, _, _) => b
  | .error _ => false

/-- Whether an `Except` computation finished without throwing. -/
def isOkE {ε α : Type} : Except ε α → Bool
  | .ok _ => true
  | .error _ => false

/-- Modelled from the spec's dispatch description ("patterns are tested
in insertion order; the first match dispatches"): the first route of the
list whose match succeeds, with its captures. -/
def firstMatchSpec : List Route → List Char →
    Option (Route × List TypedParam × List TypedParam)
  | [], _ => none
  | r :: rest, req =>
    match routeMatch r.fragments req with
    | .ok (true, ps, ss) => some (r, ps, ss)
    | .ok (false, _, _) => firstMatchSpec rest req
    | .error _ => firstMatchSpec rest req

/-! ### Helper lemmas -/

lemma mapInsert_of_present {α : Type} (m : List (Nat × α)) (k : Nat) (v w : α)
    (h : mapFind m k = some w) : mapInsert m k v = m := by
  unfold mapInsert
  rw [h]

lemma writeLoopAux_firstTry_table (toWrite : List (Nat × WriteEntry)) (fd : Nat)
    (entry : WriteEntry) (w : WriteEntry) (h : mapFind toWrite fd = some w) :
    ∀ (oracle : List SendRes) (tw : Nat),
      (writeLoopAux toWrite fd entry .FirstTry tw oracle).1 = toWrite := by
  intro oracle
  induction oracle with
  | nil => intro tw; rfl
  | cons r rs ih =>
    intro tw
    cases r with
    | eagain => simp [writeLoopAux, mapInsert_of_present _ _ _ _ h]
    | err => simp [writeLoopAux]
    | sent n =>
      simp only [writeLoopAux]
      split
      · simp
      · exact ih _

/-! ### Claim C1 -/

/-- Claim C1 (code bug): the write path is required to resolve exactly
once, with the total byte count equal to the full payload length, only
after every byte of the payload has been sent.  `asyncWriteImpl` compares
the advanced running total against the stale per-iteration remainder
`len = buffer.size() - totalWritten`: with a 10-byte payload and the
kernel accepting 4 then 2 bytes, it resolves with total 6 after only 6 of
the 10 bytes were delivered and releases the payload; with the kernel
accepting 4 then 6 bytes, all 10 bytes are delivered but the loop never
resolves. -/
theorem asyncWrite_partial_send_miscount :
    asyncWriteImpl [] 5 ⟨[0,1,2,3,4,5,6,7,8,9], 0, 1⟩ .FirstTry [.sent 4, .sent 2]
      = ([], .resolved 1 6, [0, 1, 2, 3, 4, 5]) ∧
    (6 : Nat) ≠ 10 ∧
    asyncWriteImpl [] 5 ⟨[0,1,2,3,4,5,6,7,8,9], 0, 1⟩ .FirstTry [.sent 4, .sent 6]
      = ([], .looping, [0, 1, 2, 3, 4, 5, 6, 7, 8, 9]) := by
  decide

/-! ### Claim C2 -/

/-- Claim C2 (counterexample): with a pending write already stored for
descriptor 3 (write 1, payload `[7,7]`), submitting a second write
(write 2, payload `[9,9,9]`) that hits EAGAIN on its first try is not
treated as a fatal error: `toWrite.insert` is a silent no-op, the table
still holds write 1 unchanged and write 2's entry is dropped. -/
theorem pendingWrite_second_insert_silently_dropped :
    asyncWriteImpl [(3, ⟨[7,7], 0, 1⟩)] 3 ⟨[9,9,9], 0, 2⟩ .FirstTry [.eagain]
      = ([(3, ⟨[7,7], 0, 1⟩)], .pendingArmed, []) := by
  decide

/-- Claim C2 (amended): at most one PendingWrite exists per descriptor —
a first-try `asyncWriteImpl` call for a descriptor that already has a
pending entry leaves the pending-write table completely unchanged
(whatever the kernel returns), keeping the first entry; the second
write's entry is silently dropped rather than rejected. -/
theorem pendingWrite_firstTry_existing_table_unchanged
    (toWrite : List (Nat × WriteEntry)) (fd : Nat) (entry : WriteEntry)
    (oracle : List SendRes) (w : WriteEntry)
    (h : mapFind toWrite fd = some w) :
    (asyncWriteImpl toWrite fd entry .FirstTry oracle).1 = toWrite ∧
    mapFind (asyncWriteImpl toWrite fd entry .FirstTry oracle).1 fd = some w := by
  have ht := writeLoopAux_firstTry_table toWrite fd entry w h oracle 0
  constructor
  · simpa only [asyncWriteImpl] using ht
  · simp only [asyncWriteImpl]
    rw [ht]
    exact h

/-- Witness for the amended C2 theorem at a concrete table and oracle. -/
theorem pendingWrite_firstTry_existing_table_unchanged_witness :
    (asyncWriteImpl [(3, ⟨[7,7], 0, 1⟩)] 3 ⟨[9,9,9], 0, 2⟩ .FirstTry [.eagain]).1
      = [(3, ⟨[7,7], 0, 1⟩)] ∧
    mapFind (asyncWriteImpl [(3, ⟨[7,7], 0, 1⟩)] 3 ⟨[9,9,9], 0, 2⟩ .FirstTry [.eagain]).1 3
      = some ⟨[7,7], 0, 1⟩ :=
  pendingWrite_firstTry_existing_table_unchanged
    [(3, ⟨[7,7], 0, 1⟩)] 3 ⟨[9,9,9], 0, 2⟩ [.eagain] ⟨[7,7], 0, 1⟩ (by decide)

/-! ### Claim C8 -/

/-- Claim C8: arming a timer for a descriptor that already has an entry
in the timers table rejects with "already armed" and leaves everything
unchanged: same table, no `timerfd_settime`, no poller registration, no
insertion. -/
theorem armTimer_already_armed_rejects (b : Bool)
    (timers : List (Nat × TimerEntry)) (entry w : TimerEntry)
    (h : mapFind timers entry.fd = some w) :
    armTimerMsImpl b timers entry
      = (timers, [], .rejected "Timer is already armed") := by
  unfold armTimerMsImpl
  rw [h]

/-- Witness for C8: arming fd 9 twice. -/
theorem armTimer_already_armed_rejects_witness :
    armTimerMsImpl true [(9, ⟨9, 50, true⟩)] ⟨9, 700, true⟩
      = ([(9, ⟨9, 50, true⟩)], [], .rejected "Timer is already armed") :=
  armTimer_already_armed_rejects true [(9, ⟨9, 50, true⟩)] ⟨9, 700, true⟩
    ⟨9, 50, true⟩ (by decide)

/-! ### Claim C9 -/

lemma handleIncomingLoop_diag_only (maxB : Nat) :
    ∀ (oracle : List RecvRes) (total : Nat) (acc : List Nat),
      InEvent.tooLongDiag ∈ handleIncomingLoop maxB oracle total acc →
      handleIncomingLoop maxB oracle total acc = [InEvent.tooLongDiag] := by
  intro oracle
  induction oracle with
  | nil => intro total acc h; simp [handleIncomingLoop] at h
  | cons r rs ih =>
    intro total acc h
    cases r with
    | eagain =>
      simp only [handleIncomingLoop] at h
      split at h <;> simp at h
    | closed => simp [handleIncomingLoop] at h
    | reset => simp [handleIncomingLoop] at h
    | fatalErr => simp [handleIncomingLoop] at h
    | data chunk =>
      simp only [handleIncomingLoop] at h ⊢
      by_cases h0 : (List.take (maxB - total) chunk).length = 0
      · simp [h0] at h
      · by_cases h1 : maxB ≤ total + (List.take (maxB - total) chunk).length
        · simp only [if_neg h0, if_pos h1]
        · simp only [if_neg h0, if_neg h1] at h ⊢
          exact ih _ _ h

/-- Claim C9: if, during one incoming-read turn, the accumulated byte
count reaches the scratch-buffer capacity, `handleIncoming` emits the
oversize diagnostic as the turn's only event: `onInput` is never invoked
for that turn, so the bytes already read are discarded. -/
theorem handleIncoming_overflow_discards (maxB : Nat) (oracle : List RecvRes)
    (h : InEvent.tooLongDiag ∈ handleIncoming maxB oracle) :
    handleIncoming maxB oracle = [InEvent.tooLongDiag] ∧
    ∀ bs : List Nat, InEvent.onInput bs ∉ handleIncoming maxB oracle := by
  have heq := handleIncomingLoop_diag_only maxB oracle 0 [] h
  refine ⟨heq, ?_⟩
  intro bs hmem
  rw [handleIncoming] at hmem
  rw [heq] at hmem
  simp at hmem

/-- Witness for C9: a 4-byte buffer filled by chunks of 3 and 2 bytes;
the pending EAGAIN (which would have delivered the buffer) is never
reached. -/
theorem handleIncoming_overflow_discards_witness :
    handleIncoming 4 [.data [1,1,1], .data [2,2], .eagain] = [InEvent.tooLongDiag] ∧
    ∀ bs : List Nat,
      InEvent.onInput bs ∉ handleIncoming 4 [.data [1,1,1], .data [2,2], .eagain] :=
  handleIncoming_overflow_discards 4 [.data [1,1,1], .data [2,2], .eagain] (by decide)

/-! ### Claim C7 -/

/-- Claim C7: for a duration of `d` milliseconds, arming a (not yet
armed) timer programs the kernel timer with
`it_value = (0 s, d * 10^6 ns)` when `d < 1000`, and with
`it_value = (floor(d / 1000) s, 0 ns)` when `d ≥ 1000`, truncating the
sub-second remainder. -/
theorem armTimer_it_value_programming (b : Bool)
    (timers : List (Nat × TimerEntry)) (entry : TimerEntry)
    (h : mapFind timers entry.fd = none) :
    (armTimerMsImpl b timers entry).2.1.head?
      = some (.settime entry.fd (timerSpecOfMs entry.value)) ∧
    (entry.value < 1000 →
      timerSpecOfMs entry.value = ⟨0, 0, 0, entry.value * 1000000⟩) ∧
    (1000 ≤ entry.value →
      (timerSpecOfMs entry.value).value_nsec = 0 ∧
      (timerSpecOfMs entry.value).value_sec * 1000 ≤ entry.value ∧
      entry.value < ((timerSpecOfMs entry.value).value_sec + 1) * 1000) := by
  refine ⟨?_, ?_, ?_⟩
  · unfold armTimerMsImpl
    rw [h]
    cases b <;> simp
  · intro hd
    unfold timerSpecOfMs
    rw [if_pos hd]
  · intro hd
    have hnot : ¬ entry.value < 1000 := not_lt.mpr hd
    unfold timerSpecOfMs
    rw [if_neg hnot]
    obtain ⟨n, hn⟩ : ∃ n : Nat, entry.value = (n : Int) :=
      ⟨entry.value.toNat,
       (Int.toNat_of_nonneg (le_trans (by norm_num) hd)).symm⟩
    rw [hn] at hd ⊢
    have htdiv : (n : Int).tdiv 1000 = ((n / 1000 : Nat) : Int) := rfl
    refine ⟨rfl, ?_, ?_⟩
    · show ((n : Int).tdiv 1000) * 1000 ≤ (n : Int)
      rw [htdiv]
      exact_mod_cast Nat.div_mul_le_self n 1000
    · show (n : Int) < ((n : Int).tdiv 1000 + 1) * 1000
      rw [htdiv]
      have h2 : n < (n / 1000 + 1) * 1000 := by omega
      exact_mod_cast h2

/-- Witness for C7 at fd 4, duration 2500 ms, empty timer table. -/
theorem armTimer_it_value_programming_witness :
    (armTimerMsImpl true [] ⟨4, 2500, true⟩).2.1.head?
      = some (.settime 4 (timerSpecOfMs 2500)) ∧
    ((2500 : Int) < 1000 → timerSpecOfMs 2500 = ⟨0, 0, 0, 2500 * 1000000⟩) ∧
    ((1000 : Int) ≤ 2500 →
      (timerSpecOfMs 2500).value_nsec = 0 ∧
      (timerSpecOfMs 2500).value_sec * 1000 ≤ 2500 ∧
      (2500 : Int) < ((timerSpecOfMs 2500).value_sec + 1) * 1000) :=
  armTimer_it_value_programming true [] ⟨4, 2500, true⟩ rfl

/-! ### Fragment construction lemmas -/

lemma findCharPos_none_not_mem (a : Char) :
    ∀ l : List Char, findCharPos a l = none → a ∉ l := by
  intro l
  induction l with
  | nil => intro _ h; simp at h
  | cons c cs ih =>
    intro h
    by_cases hc : c = a
    · simp [findCharPos, hc] at h
    · simp only [findCharPos, if_neg hc] at h
      cases ho : findCharPos a cs with
      | none =>
        intro hmem
        rcases List.mem_cons.mp hmem with h' | h'
        · exact hc h'.symm
        · exact ih ho h'
      | some q => rw [ho] at h; simp at h

lemma findCharPos_some_decomp (a : Char) :
    ∀ (l : List Char) (p : Nat), findCharPos a l = some p →
      l.take p ++ a :: l.drop (p + 1) = l ∧ a ∉ l.take p ∧ p + 1 ≤ l.length := by
  intro l
  induction l with
  | nil => intro p h; simp [findCharPos] at h
  | cons c cs ih =>
    intro p h
    by_cases hc : c = a
    · simp only [findCharPos, if_pos hc] at h
      cases h
      subst hc
      simp
    · simp only [findCharPos, if_neg hc] at h
      cases ho : findCharPos a cs with
      | none => rw [ho] at h; simp at h
      | some q =>
        rw [ho] at h
        simp at h
        subst h
        obtain ⟨h1, h2, h3⟩ := ih q ho
        refine ⟨?_, ?_, ?_⟩
        · simpa [List.take_succ_cons, List.drop_succ_cons] using congrArg (c :: ·) h1
        · intro hmem
          rcases List.mem_cons.mp (by simpa [List.take_succ_cons] using hmem) with h' | h'
          · exact hc h'.symm
          · exact h2 h'
        · simp only [List.length_cons]
          omega

lemma checkInv_ok (f g : Fragment) (h : checkInv f = .ok g) :
    g = f ∧ fragWF f = true := by
  unfold checkInv at h
  split at h
  · cases h; exact ⟨rfl, by assumption⟩
  · cases h

/-- Structure of any fragment accepted by `fragmentInit`: it passes
`checkInvariant`; a Parameter fragment's source and stored text start
with `:`; an Optional fragment comes exactly from a source ending in a
single trailing `?` which is stripped; a non-Optional fragment stores its
source verbatim, which contains no `?`. -/
lemma fragmentInit_ok_struct (v : List Char) (f : Fragment)
    (h : fragmentInit v = .ok f) :
    fragWF f = true ∧
    (f.parameter = true → v.head? = some ':' ∧ f.value.head? = some ':') ∧
    (f.optional = true →
      f.parameter = true ∧ v = f.value ++ ['?'] ∧ '?' ∉ f.value) ∧
    (f.optional = false → f.value = v ∧ '?' ∉ v) := by
  cases v with
  | nil => simp [fragmentInit] at h
  | cons c rest =>
    cases hfp : findCharPos '?' (c :: rest) with
    | none =>
      simp only [fragmentInit, hfp] at h
      split at h
      · cases h
      · obtain ⟨rfl, hwf⟩ := checkInv_ok _ _ h
        refine ⟨hwf, ?_, ?_, ?_⟩
        · intro hp
          have hc : c = ':' := by simpa using hp
          subst hc
          exact ⟨rfl, rfl⟩
        · intro ho; cases ho
        · intro _
          exact ⟨rfl, findCharPos_none_not_mem '?' _ hfp⟩
    | some pos =>
      simp only [fragmentInit, hfp] at h
      split at h
      · cases h
      · split at h
        · cases h
        · split at h
          · cases h
          · rename_i hcolon hpos
            have hc : c = ':' := not_not.mp hcolon
            have hpe : pos = (c :: rest).length - 1 := not_not.mp hpos
            obtain ⟨rfl, hwf⟩ := checkInv_ok _ _ h
            obtain ⟨hdec, hnotin, _hle⟩ :=
              findCharPos_some_decomp '?' (c :: rest) pos hfp
            have hlen : pos + 1 = (c :: rest).length := by
              simp only [List.length_cons] at hpe ⊢
              omega
            have hdrop : (c :: rest).drop (pos + 1) = [] := by
              rw [hlen]
              exact List.drop_length _
            rw [hdrop] at hdec
            have hposne : pos ≠ 0 := by
              intro hz
              subst hz
              simp only [List.take_zero, List.nil_append] at hdec
              have hce : '?' = c := (List.cons.injEq _ _ _ _).mp hdec |>.1
              rw [hc] at hce
              exact absurd hce (by decide)
            obtain ⟨q, rfl⟩ : ∃ q, pos = q + 1 := ⟨pos - 1, by omega⟩
            refine ⟨hwf, ?_, ?_, ?_⟩
            · intro _
              subst hc
              exact ⟨rfl, by simp [List.take_succ_cons]⟩
            · intro _
              refine ⟨by simp [hc], ?_, hnotin⟩
              exact hdec.symm
            · intro ho; cases ho

lemma compileFragments_ok_mem :
    ∀ (vs : List (List Char)) (fs : List Fragment),
      compileFragments vs = .ok fs → ∀ f ∈ fs, ∃ v, fragmentInit v = .ok f := by
  intro vs
  induction vs with
  | nil =>
    intro fs h f hf
    simp only [compileFragments] at h
    cases h
    simp at hf
  | cons v vt ih =>
    intro fs h f hf
    simp only [compileFragments] at h
    cases h1 : fragmentInit v with
    | error e => rw [h1] at h; cases h
    | ok g =>
      rw [h1] at h
      cases h2 : compileFragments vt with
      | error e => rw [h2] at h; cases h
      | ok gs =>
        rw [h2] at h
        cases h
        rcases List.mem_cons.mp hf with h' | h'
        · exact ⟨v, h' ▸ h1⟩
        · exact ih gs h2 f h'

lemma fromUrl_ok_frag (url : List Char) (fs : List Fragment)
    (h : fromUrl url = .ok fs) :
    ∀ f ∈ fs, ∃ v, fragmentInit v = .ok f :=
  compileFragments_ok_mem _ _ h

/-! ### Claim C3 -/

/-- Claim C3 (counterexample): the pattern `:x?/b` — an Optional fragment
followed by a further fragment — is accepted by `Fragment::fromUrl`
rather than rejected: it compiles to a two-fragment pattern whose first
fragment is Optional and whose last is not. -/
theorem optional_mid_pattern_accepted :
    fromUrl (":x?/b".data)
      = .ok [⟨":x".data, false, true, false, true⟩,
             ⟨"b".data, true, false, false, false⟩] ∧
    isOptionalF ⟨":x".data, false, true, false, true⟩ = true ∧
    isOptionalF ⟨"b".data, true, false, false, false⟩ = false := by
  decide

/-- Claim C3 (amended): the `?` marker is validated per fragment only: a
fragment accepted as Optional is a Parameter fragment whose source text
starts with `:` and ends in a single trailing `?`, which is stripped; a
fragment accepted as non-Optional stores its source verbatim and that
source contains no `?`.  (`fromUrl` performs no pattern-level check that
an Optional fragment is last.) -/
theorem fragmentInit_optional_trailing_qmark (v : List Char) (f : Fragment)
    (h : fragmentInit v = .ok f) :
    (f.optional = true →
      f.parameter = true ∧ v.head? = some ':' ∧
      v = f.value ++ ['?'] ∧ '?' ∉ f.value) ∧
    (f.optional = false → f.value = v ∧ '?' ∉ v) := by
  obtain ⟨_, hpar, hopt, hnopt⟩ := fragmentInit_ok_struct v f h
  refine ⟨?_, hnopt⟩
  intro ho
  obtain ⟨hp, hv, hnin⟩ := hopt ho
  exact ⟨hp, (hpar hp).1, hv, hnin⟩

/-- Witness for the amended C3 theorem on the fragment `:x?`. -/
theorem fragmentInit_optional_trailing_qmark_witness :
    ((⟨":x".data, false, true, false, true⟩ : Fragment).optional = true →
      (⟨":x".data, false, true, false, true⟩ : Fragment).parameter = true ∧
      ":x?".data.head? = some ':' ∧
      ":x?".data = (⟨":x".data, false, true, false, true⟩ : Fragment).value ++ ['?'] ∧
      '?' ∉ (⟨":x".data, false, true, false, true⟩ : Fragment).value) ∧
    ((⟨":x".data, false, true, false, true⟩ : Fragment).optional = false →
      (⟨":x".data, false, true, false, true⟩ : Fragment).value = ":x?".data ∧
      '?' ∉ ":x?".data) :=
  fragmentInit_optional_trailing_qmark ":x?".data
    ⟨":x".data, false, true, false, true⟩ (by decide)

/-! ### Route matching lemmas -/

lemma routeMatch_eq_of_split (pat : List Fragment) (req : List Char)
    (rf : List Fragment) (h : fromUrl req = .ok rf) :
    routeMatch pat req =
      (if rf.length > pat.length then .ok (false, [], [])
       else
         match matchLoop pat rf with
         | none => .ok (false, [], [])
         | some (params, splats) => .ok (true, params, splats)) := by
  unfold routeMatch
  rw [h]

lemma matchLoop_one_fewer :
    ∀ (reqs pat : List Fragment) (lastF : Fragment),
      reqs.length + 1 = pat.length →
      pat.getLast? = some lastF →
      (∀ q ∈ (pat.take reqs.length).zip reqs, fragMatch q.1 q.2.value = true) →
      (matchLoop pat reqs).isSome = isOptionalF lastF := by
  intro reqs
  induction reqs with
  | nil =>
    intro pat lastF hlen hlast _
    cases pat with
    | nil => simp at hlen
    | cons f pt =>
      cases pt with
      | cons g pt' => simp at hlen
      | nil =>
        have hlf : lastF = f := by
          simpa using hlast.symm
        subst hlf
        cases hopt : isOptionalF lastF <;> simp [matchLoop, hopt]
  | cons r rt ih =>
    intro pat lastF hlen hlast hm
    cases pat with
    | nil => simp at hlen
    | cons f pt =>
      have hplen : rt.length + 1 = pt.length := by simpa using hlen
      have hlast' : pt.getLast? = some lastF := by
        cases pt with
        | nil => simp at hplen
        | cons g pt' => rw [List.getLast?_cons_cons] at hlast; exact hlast
      have hmf : fragMatch f r.value = true := by
        apply hm (f, r)
        simp [List.take_succ_cons, List.zip_cons_cons]
      have hm' : ∀ q ∈ (pt.take rt.length).zip rt, fragMatch q.1 q.2.value = true := by
        intro q hq
        apply hm
        have hz : ((f :: pt).take ((r :: rt).length)).zip (r :: rt)
            = (f, r) :: (pt.take rt.length).zip rt := by
          simp [List.take_succ_cons, List.zip_cons_cons]
        rw [hz]
        exact List.mem_cons_of_mem _ hq
      have hrec := ih pt lastF hplen hlast' hm'
      have hsame : (matchLoop (f :: pt) (r :: rt)).isSome = (matchLoop pt rt).isSome := by
        simp only [matchLoop, hmf, if_true]
        cases hml : matchLoop pt rt with
        | none => simp
        | some pr =>
          rcases pr with ⟨a, b⟩
          cases hp : isParameterF f <;> cases hs : isSplatF f <;> simp
      rw [hsame, hrec]

/-! ### Claim C4 -/

/-- Claim C4: a request URL splitting into more fragments than the
pattern never matches; a request URL splitting into exactly one fewer
fragment than the pattern, all of whose present fragments match, matches
if and only if the final pattern fragment is Optional. -/
theorem routeMatch_length_boundaries (pat reqFrags : List Fragment)
    (req : List Char) (lastF : Fragment)
    (hsplit : fromUrl req = .ok reqFrags) :
    (reqFrags.length > pat.length → routeMatch pat req = .ok (false, [], [])) ∧
    (reqFrags.length + 1 = pat.length →
      pat.getLast? = some lastF →
      (∀ q ∈ (pat.take reqFrags.length).zip reqFrags, fragMatch q.1 q.2.value = true) →
      matchedB (routeMatch pat req) = isOptionalF lastF) := by
  constructor
  · intro hlen
    rw [routeMatch_eq_of_split pat req reqFrags hsplit]
    rw [if_pos hlen]
  · intro hlen hlast hm
    have hiso := matchLoop_one_fewer reqFrags pat lastF hlen hlast hm
    rw [routeMatch_eq_of_split pat req reqFrags hsplit]
    have hngt : ¬ reqFrags.length > pat.length := by omega
    rw [if_neg hngt]
    cases hrec : matchLoop pat reqFrags with
    | none =>
      rw [hrec] at hiso
      simpa [matchedB] using hiso
    | some pr =>
      rcases pr with ⟨a, b⟩
      rw [hrec] at hiso
      simpa [matchedB] using hiso

/-- Witness for C4 on the pattern `a/:x?` with requests `a` (one fewer
fragment, Optional tail) and implicitly the length bound. -/
theorem routeMatch_length_boundaries_witness :
    (([⟨"a".data, true, false, false, false⟩] : List Fragment).length >
        ([⟨"a".data, true, false, false, false⟩,
          ⟨":x".data, false, true, false, true⟩] : List Fragment).length →
      routeMatch [⟨"a".data, true, false, false, false⟩,
                  ⟨":x".data, false, true, false, true⟩] "a".data
        = .ok (false, [], [])) ∧
    (([⟨"a".data, true, false, false, false⟩] : List Fragment).length + 1 =
        ([⟨"a".data, true, false, false, false⟩,
          ⟨":x".data, false, true, false, true⟩] : List Fragment).length →
      ([⟨"a".data, true, false, false, false⟩,
        ⟨":x".data, false, true, false, true⟩] : List Fragment).getLast?
          = some ⟨":x".data, false, true, false, true⟩ →
      (∀ q ∈ (([⟨"a".data, true, false, false, false⟩,
                ⟨":x".data, false, true, false, true⟩] : List Fragment).take
                  ([⟨"a".data, true, false, false, false⟩] : List Fragment).length).zip
                ([⟨"a".data, true, false, false, false⟩] : List Fragment),
         fragMatch q.1 q.2.value = true) →
      matchedB (routeMatch [⟨"a".data, true, false, false, false⟩,
                            ⟨":x".data, false, true, false, true⟩] "a".data)
        = isOptionalF ⟨":x".data, false, true, false, true⟩) :=
  routeMatch_length_boundaries
    [⟨"a".data, true, false, false, false⟩, ⟨":x".data, false, true, false, true⟩]
    [⟨"a".data, true, false, false, false⟩] "a".data
    ⟨":x".data, false, true, false, true⟩ (by decide)

lemma wf_no_splat_of_param (f : Fragment) (hwf : fragWF f = true)
    (hp : f.parameter = true) : isSplatF f = false := by
  unfold fragWF at hwf
  unfold isSplatF
  cases hs : f.splat
  · rfl
  · rw [hs, hp] at hwf
    simp at hwf

lemma param_of_optionalF (f : Fragment) (ho : isOptionalF f = true) :
    f.parameter = true := by
  unfold isOptionalF at ho
  cases hp : f.parameter
  · rw [hp] at ho; simp at ho
  · rfl

lemma matchLoop_counts :
    ∀ (pat reqs : List Fragment) (ps ss : List TypedParam),
      (∀ f ∈ pat, fragWF f = true) →
      matchLoop pat reqs = some (ps, ss) →
      ps.length = (pat.take reqs.length).countP isParameterF ∧
      ss.length = pat.countP isSplatF ∧
      ∀ t ∈ ss, t.name = t.value := by
  intro pat
  induction pat with
  | nil =>
    intro reqs ps ss _ h
    simp only [matchLoop] at h
    cases h
    simp
  | cons f pt ih =>
    intro reqs ps ss hwf h
    have hwf_f : fragWF f = true := hwf f (by simp)
    have hwf' : ∀ g ∈ pt, fragWF g = true := fun g hg => hwf g (by simp [hg])
    cases reqs with
    | nil =>
      simp only [matchLoop] at h
      split at h
      · rename_i hopt
        obtain ⟨h1, h2, h3⟩ := ih [] ps ss hwf' h
        have hns : isSplatF f = false :=
          wf_no_splat_of_param f hwf_f (param_of_optionalF f hopt)
        refine ⟨by simpa using h1, ?_, h3⟩
        rw [List.countP_cons, hns]
        simpa using h2
      · cases h
    | cons r rt =>
      by_cases hfm : fragMatch f r.value = true
      · cases hrec : matchLoop pt rt with
        | none =>
          have hnone : matchLoop (f :: pt) (r :: rt) = none := by
            simp [matchLoop, hfm, hrec]
          rw [hnone] at h
          cases h
        | some pr =>
          rcases pr with ⟨ps', ss'⟩
          obtain ⟨h1, h2, h3⟩ := ih rt ps' ss' hwf' hrec
          by_cases hpar : isParameterF f = true
          · have heq : matchLoop (f :: pt) (r :: rt)
                = some (⟨f.value, r.value⟩ :: ps', ss') := by
              simp [matchLoop, hfm, hrec, hpar]
            rw [heq] at h
            cases h
            have hns : isSplatF f = false := wf_no_splat_of_param f hwf_f hpar
            refine ⟨?_, ?_, h3⟩
            · simp only [List.length_cons, List.take_succ_cons, List.countP_cons,
                hpar, h1]
              simp
            · rw [List.countP_cons, hns]
              simpa using h2
          · have hparf : isParameterF f = false := by
              revert hpar; cases isParameterF f <;> simp
            by_cases hsp : isSplatF f = true
            · have heq : matchLoop (f :: pt) (r :: rt)
                  = some (ps', ⟨r.value, r.value⟩ :: ss') := by
                simp [matchLoop, hfm, hrec, hparf, hsp]
              rw [heq] at h
              cases h
              refine ⟨?_, ?_, ?_⟩
              · simp only [List.take_succ_cons, List.countP_cons, hparf, h1]
                simp [List.countP_cons, hparf]
              · simp only [List.length_cons, List.countP_cons, hsp, h2]
                simp
              · intro t ht
                rcases List.mem_cons.mp ht with h' | h'
                · subst h'; rfl
                · exact h3 t h'
            · have hspf : isSplatF f = false := by
                revert hsp; cases isSplatF f <;> simp
              have heq : matchLoop (f :: pt) (r :: rt) = some (ps', ss') := by
                simp [matchLoop, hfm, hrec, hparf, hspf]
              rw [heq] at h
              cases h
              refine ⟨?_, ?_, h3⟩
              · simp only [List.take_succ_cons, List.countP_cons, hparf, h1]
                simp [List.countP_cons, hparf]
              · rw [List.countP_cons, hspf]
                simpa using h2
      · have hnone : matchLoop (f :: pt) (r :: rt) = none := by
          simp [matchLoop, hfm]
        rw [hnone] at h
        cases h

/-! ### Claim C5 -/

/-- Claim C5: for every successful `Route::match`, the params list has
exactly one entry per Parameter fragment in the matched prefix (pattern
positions with a corresponding request fragment), the splats list has
exactly one entry per Splat fragment, and each splat entry stores the
captured request fragment as both its name and its value. -/
theorem routeMatch_capture_counts (patStr req : List Char)
    (pat reqFrags : List Fragment) (ps ss : List TypedParam)
    (hc : fromUrl patStr = .ok pat)
    (hr : fromUrl req = .ok reqFrags)
    (hm : routeMatch pat req = .ok (true, ps, ss)) :
    ps.length = (pat.take reqFrags.length).countP isParameterF ∧
    ss.length = pat.countP isSplatF ∧
    ∀ t ∈ ss, t.name = t.value := by
  have hwf : ∀ f ∈ pat, fragWF f = true := by
    intro f hf
    obtain ⟨v, hv⟩ := fromUrl_ok_frag patStr pat hc f hf
    exact (fragmentInit_ok_struct v f hv).1
  rw [routeMatch_eq_of_split pat req reqFrags hr] at hm
  by_cases hgt : reqFrags.length > pat.length
  · rw [if_pos hgt] at hm
    simp at hm
  · rw [if_neg hgt] at hm
    cases hrec : matchLoop pat reqFrags with
    | none => rw [hrec] at hm; simp at hm
    | some pr =>
      rcases pr with ⟨ps', ss'⟩
      rw [hrec] at hm
      have hps : ps' = ps ∧ ss' = ss := by simpa using hm
      obtain ⟨rfl, rfl⟩ := hps
      exact matchLoop_counts pat reqFrags ps' ss' hwf hrec

/-- Witness for C5 on the pattern `a/:x/*` matched against `a/7/z`. -/
theorem routeMatch_capture_counts_witness :
    ([⟨":x".data, "7".data⟩] : List TypedParam).length =
      (([⟨"a".data, true, false, false, false⟩,
         ⟨":x".data, false, true, false, false⟩,
         ⟨"*".data, false, false, true, false⟩] : List Fragment).take
        ([⟨"a".data, true, false, false, false⟩,
          ⟨"7".data, true, false, false, false⟩,
          ⟨"z".data, true, false, false, false⟩] : List Fragment).length).countP
        isParameterF ∧
    ([⟨"z".data, "z".data⟩] : List TypedParam).length =
      ([⟨"a".data, true, false, false, false⟩,
        ⟨":x".data, false, true, false, false⟩,
        ⟨"*".data, false, false, true, false⟩] : List Fragment).countP isSplatF ∧
    ∀ t ∈ ([⟨"z".data, "z".data⟩] : List TypedParam), t.name = t.value :=
  routeMatch_capture_counts "a/:x/*".data "a/7/z".data
    [⟨"a".data, true, false, false, false⟩,
     ⟨":x".data, false, true, false, false⟩,
     ⟨"*".data, false, false, true, false⟩]
    [⟨"a".data, true, false, false, false⟩,
     ⟨"7".data, true, false, false, false⟩,
     ⟨"z".data, true, false, false, false⟩]
    [⟨":x".data, "7".data⟩] [⟨"z".data, "z".data⟩]
    (by decide) (by decide) (by decide)

lemma matchLoop_param_source :
    ∀ (pat reqs : List Fragment) (ps ss : List TypedParam),
      matchLoop pat reqs = some (ps, ss) →
      ∀ p ∈ ps, ∃ f, f ∈ pat ∧ f.parameter = true ∧ p.name = f.value := by
  intro pat
  induction pat with
  | nil =>
    intro reqs ps ss h p hp
    simp only [matchLoop] at h
    cases h
    simp at hp
  | cons f pt ih =>
    intro reqs ps ss h p hp
    cases reqs with
    | nil =>
      simp only [matchLoop] at h
      split at h
      · obtain ⟨g, hg, hgp, hgn⟩ := ih [] ps ss h p hp
        exact ⟨g, List.mem_cons_of_mem f hg, hgp, hgn⟩
      · cases h
    | cons r rt =>
      by_cases hfm : fragMatch f r.value = true
      · cases hrec : matchLoop pt rt with
        | none =>
          have hnone : matchLoop (f :: pt) (r :: rt) = none := by
            simp [matchLoop, hfm, hrec]
          rw [hnone] at h
          cases h
        | some pr =>
          rcases pr with ⟨ps', ss'⟩
          by_cases hpar : isParameterF f = true
          · have heq : matchLoop (f :: pt) (r :: rt)
                = some (⟨f.value, r.value⟩ :: ps', ss') := by
              simp [matchLoop, hfm, hrec, hpar]
            rw [heq] at h
            cases h
            rcases List.mem_cons.mp hp with h' | h'
            · subst h'
              exact ⟨f, List.mem_cons_self f pt, hpar, rfl⟩
            · obtain ⟨g, hg, hgp, hgn⟩ := ih rt ps' ss hrec p h'
              exact ⟨g, List.mem_cons_of_mem f hg, hgp, hgn⟩
          · have hparf : isParameterF f = false := by
              revert hpar; cases isParameterF f <;> simp
            by_cases hsp : isSplatF f = true
            · have heq : matchLoop (f :: pt) (r :: rt)
                  = some (ps', ⟨r.value, r.value⟩ :: ss') := by
                simp [matchLoop, hfm, hrec, hparf, hsp]
              rw [heq] at h
              cases h
              obtain ⟨g, hg, hgp, hgn⟩ := ih rt ps ss' hrec p hp
              exact ⟨g, List.mem_cons_of_mem f hg, hgp, hgn⟩
            · have hspf : isSplatF f = false := by
                revert hsp; cases isSplatF f <;> simp
              have heq : matchLoop (f :: pt) (r :: rt) = some (ps', ss') := by
                simp [matchLoop, hfm, hrec, hparf, hspf]
              rw [heq] at h
              cases h
              obtain ⟨g, hg, hgp, hgn⟩ := ih rt ps ss hrec p hp
              exact ⟨g, List.mem_cons_of_mem f hg, hgp, hgn⟩
      · have hnone : matchLoop (f :: pt) (r :: rt) = none := by
          simp [matchLoop, hfm]
        rw [hnone] at h
        cases h

/-! ### Claim C10 -/

/-- Claim C10: every captured parameter keeps the pattern fragment's text
including its leading `:` as its stored name (only a trailing `?` was
stripped at compilation); consequently `Request::hasParam` and
`Request::param` succeed only for colon-prefixed names, and `param`
called with a bare identifier (no leading `:`) throws
"Unknown parameter". -/
theorem param_names_keep_colon (patStr req bare : List Char)
    (pat : List Fragment) (ps ss : List TypedParam)
    (hc : fromUrl patStr = .ok pat)
    (hm : routeMatch pat req = .ok (true, ps, ss))
    (hbare : bare.head? ≠ some ':') :
    (∀ p ∈ ps, ∃ f, f ∈ pat ∧ f.parameter = true ∧ p.name = f.value ∧
       p.name.head? = some ':') ∧
    hasParam ps bare = false ∧
    requestParam ps bare = .error "Unknown parameter" ∧
    ∀ p ∈ ps, hasParam ps p.name = true := by
  cases hfr : fromUrl req with
  | error e =>
    unfold routeMatch at hm
    rw [hfr] at hm
    cases hm
  | ok rf =>
    rw [routeMatch_eq_of_split pat req rf hfr] at hm
    by_cases hgt : rf.length > pat.length
    · rw [if_pos hgt] at hm
      simp at hm
    · rw [if_neg hgt] at hm
      cases hrec : matchLoop pat rf with
      | none => rw [hrec] at hm; simp at hm
      | some pr =>
        rcases pr with ⟨ps', ss'⟩
        rw [hrec] at hm
        have hps : ps' = ps ∧ ss' = ss := by simpa using hm
        obtain ⟨rfl, rfl⟩ := hps
        have hsrc := matchLoop_param_source pat rf ps' ss' hrec
        have hhead : ∀ p ∈ ps', p.name.head? = some ':' := by
          intro p hp
          obtain ⟨f, hf, hpar, hname⟩ := hsrc p hp
          obtain ⟨v, hv⟩ := fromUrl_ok_frag patStr pat hc f hf
          have hh := (fragmentInit_ok_struct v f hv).2.1 hpar
          rw [hname]
          exact hh.2
        refine ⟨?_, ?_, ?_, ?_⟩
        · intro p hp
          obtain ⟨f, hf, hpar, hname⟩ := hsrc p hp
          exact ⟨f, hf, hpar, hname, hhead p hp⟩
        · unfold hasParam
          rw [List.any_eq_false]
          intro p hp
          simp only [decide_eq_true_eq]
          intro hEq
          apply hbare
          rw [← hEq]
          exact hhead p hp
        · unfold requestParam
          have hfind : ps'.find? (fun p => decide (p.name = bare)) = none := by
            rw [List.find?_eq_none]
            intro p hp
            simp only [decide_eq_true_eq]
            intro hEq
            apply hbare
            rw [← hEq]
            exact hhead p hp
          rw [hfind]
        · intro p hp
          unfold hasParam
          rw [List.any_eq_true]
          exact ⟨p, hp, by simp⟩

/-- Witness for C10: pattern `:id` matched against `42`; lookup with the
bare name `id` fails while `:id` is present. -/
theorem param_names_keep_colon_witness :
    (∀ p ∈ ([⟨":id".data, "42".data⟩] : List TypedParam),
       ∃ f, f ∈ ([⟨":id".data, false, true, false, false⟩] : List Fragment) ∧
         f.parameter = true ∧ p.name = f.value ∧ p.name.head? = some ':') ∧
    hasParam [⟨":id".data, "42".data⟩] "id".data = false ∧
    requestParam [⟨":id".data, "42".data⟩] "id".data
      = .error "Unknown parameter" ∧
    ∀ p ∈ ([⟨":id".data, "42".data⟩] : List TypedParam),
      hasParam [⟨":id".data, "42".data⟩] p.name = true :=
  param_names_keep_colon ":id".data "42".data "id".data
    [⟨":id".data, false, true, false, false⟩]
    [⟨":id".data, "42".data⟩] [] (by decide) (by decide) (by decide)

/-! ### Router registration and dispatch lemmas -/

lemma buildRouter_foldl_acc (m : Method) :
    ∀ (regs : List (Method × Route)) (acc : Method → List Route),
      (regs.foldl (fun a p => addRoute a p.1 p.2) acc) m
        = acc m ++ (regs.filter (fun p => decide (p.1 = m))).map Prod.snd := by
  intro regs
  induction regs with
  | nil => intro acc; simp
  | cons p tl ih =>
    intro acc
    simp only [List.foldl_cons, List.filter_cons]
    rw [ih]
    by_cases hm : p.1 = m
    · subst hm
      simp [addRoute, List.append_assoc]
    · have hm' : ¬ (m = p.1) := fun hh => hm hh.symm
      simp [hm, hm', addRoute]

lemma onRequestLoop_firstMatch :
    ∀ (rs : List Route) (req : List Char),
      (∀ r ∈ rs, isOkE (routeMatch r.fragments req) = true) →
      onRequestLoop rs req
        = .ok (match firstMatchSpec rs req with
               | some (r, ps, ss) => .dispatched r.handler ps ss
               | none => .response 404 notFoundBody) := by
  intro rs
  induction rs with
  | nil => intro req _; simp [onRequestLoop, firstMatchSpec]
  | cons r tl ih =>
    intro req hok
    have hr := hok r (List.mem_cons_self r tl)
    cases hm : routeMatch r.fragments req with
    | error e => rw [hm] at hr; simp [isOkE] at hr
    | ok res =>
      rcases res with ⟨b, ps, ss⟩
      cases b
      · simp only [onRequestLoop, firstMatchSpec, hm]
        exact ih req (fun r' hr' => hok r' (List.mem_cons_of_mem r hr'))
      · simp only [onRequestLoop, firstMatchSpec, hm]

/-! ### Claim C6 -/

/-- Claim C6: for every request, dispatch consults only the routes
registered for the request's method, in registration order (the built
route vector for method `m` is exactly the `m`-registrations in order),
and invokes the handler of the first matching route; when no route for
the method matches, it responds 404 with body
"Could not find a matching route". -/
theorem router_first_match_dispatch (regs : List (Method × Route)) (m : Method)
    (req : List Char)
    (hok : ∀ r ∈ buildRouter regs m, isOkE (routeMatch r.fragments req) = true) :
    buildRouter regs m = (regs.filter (fun p => decide (p.1 = m))).map Prod.snd ∧
    onRequest (buildRouter regs) m req
      = .ok (match firstMatchSpec (buildRouter regs m) req with
             | some (r, ps, ss) => .dispatched r.handler ps ss
             | none => .response 404 notFoundBody) := by
  constructor
  · have hb := buildRouter_foldl_acc m regs (fun _ => [])
    simpa [buildRouter] using hb
  · exact onRequestLoop_firstMatch (buildRouter regs m) req hok

/-- Witness for C6: three registrations (GET a, POST b, GET a with a
different handler); a GET for `a` sees only the two GET routes in order
and dispatches the first. -/
theorem router_first_match_dispatch_witness :
    buildRouter [(Method.Get, ⟨[⟨"a".data, true, false, false, false⟩], 1⟩),
                 (Method.Post, ⟨[⟨"b".data, true, false, false, false⟩], 2⟩),
                 (Method.Get, ⟨[⟨"a".data, true, false, false, false⟩], 3⟩)] Method.Get
      = (([(Method.Get, ⟨[⟨"a".data, true, false, false, false⟩], 1⟩),
           (Method.Post, ⟨[⟨"b".data, true, false, false, false⟩], 2⟩),
           (Method.Get, ⟨[⟨"a".data, true, false, false, false⟩], 3⟩)] :
            List (Method × Route)).filter
          (fun p => decide (p.1 = Method.Get))).map Prod.snd ∧
    onRequest (buildRouter
        [(Method.Get, ⟨[⟨"a".data, true, false, false, false⟩], 1⟩),
         (Method.Post, ⟨[⟨"b".data, true, false, false, false⟩], 2⟩),
         (Method.Get, ⟨[⟨"a".data, true, false, false, false⟩], 3⟩)])
        Method.Get "a".data
      = .ok (match firstMatchSpec (buildRouter
              [(Method.Get, ⟨[⟨"a".data, true, false, false, false⟩], 1⟩),
               (Method.Post, ⟨[⟨"b".data, true, false, false, false⟩], 2⟩),
               (Method.Get, ⟨[⟨"a".data, true, false, false, false⟩], 3⟩)]
              Method.Get) "a".data with
             | some (r, ps, ss) => .dispatched r.handler ps ss
             | none => .response 404 notFoundBody) :=
  router_first_match_dispatch
    [(Method.Get, ⟨[⟨"a".data, true, false, false, false⟩], 1⟩),
     (Method.Post, ⟨[⟨"b".data, true, false, false, false⟩], 2⟩),
     (Method.Get, ⟨[⟨"a".data, true, false, false, false⟩], 3⟩)]
    Method.Get "a".data (by decide)
